import Mathlib

/-!
Verification of the debateSettler time-tracking aggregation scripts.

The Python sources are embedded shallowly:

* civil timestamps are modelled as seconds since the Unix epoch (`Nat`);
  all timestamps handled by the scripts are UTC instants from Toggl,
  so comparison of `datetime` objects is comparison of these numbers;
* `datetime.date()` is seconds-div-86400 (days since the epoch),
  `datetime.hour` / `.minute` are the obvious remainders;
* the `pytz` zone `Europe/Zurich` is modelled by the EU daylight-saving
  rule (CET = UTC+1, CEST = UTC+2 between 01:00 UTC of the last Sunday
  of March and 01:00 UTC of the last Sunday of October), which is the
  IANA rule for this zone for every year the scripts can see;
* Python `float` arithmetic on hour values is modelled by `ℚ`;
* a fallible computation (a Python expression that can raise) returns
  `Except Unit`.
-/

deriving instance DecidableEq for Except

namespace DS

/-- `f"{n:02d}"`: decimal rendering of a `Nat`, left-padded to two digits. -/
def pad2 (n : Nat) : String :=
  if n < 10 then r"0" ++ toString n else toString n

/-- `f"{m // 60:02d}:{m % 60:02d}"`: minutes since midnight as an `HH:MM` string. -/
def fmtHM (m : Nat) : String :=
  pad2 (m / 60) ++ r":" ++ pad2 (m % 60)

/-- Day index (days since 1970-01-01) of a timestamp: `datetime.date()`. -/
def dateOfN (t : Nat) : Nat := t / 86400

/-- `datetime.hour` of a timestamp. -/
def hourOfN (t : Nat) : Nat := t % 86400 / 3600

/-- `dt.hour * 60 + dt.minute`: minutes since midnight of a timestamp. -/
def minutesN (t : Nat) : Nat := t % 86400 / 60

/-- Days since 1970-01-01 of the civil date `y-m-d` (valid for `y ≥ 1970`);
the standard Gregorian-calendar day-numbering algorithm. -/
def daysFromCivilN (y m d : Nat) : Nat :=
  let y1 := if m ≤ 2 then y - 1 else y
  let era := y1 / 400
  let yoe := y1 % 400
  let mp := if 2 < m then m - 3 else m + 9
  let doy := (153 * mp + 2) / 5 + d - 1
  let doe := yoe * 365 + yoe / 4 - yoe / 100 + doy
  era * 146097 + doe - 719468

/-- Civil date `(year, month, day)` of a day index (days since 1970-01-01);
inverse of `daysFromCivilN` on the supported range. -/
def civilFromDaysN (z : Nat) : Nat × Nat × Nat :=
  let z1 := z + 719468
  let era := z1 / 146097
  let doe := z1 % 146097
  let yoe := (doe - doe / 1460 + doe / 36524 - doe / 146096) / 365
  let y := yoe + era * 400
  let doy := doe - (365 * yoe + yoe / 4 - yoe / 100)
  let mp := (5 * doy + 2) / 153
  let d := doy - (153 * mp + 2) / 5 + 1
  let m := if mp < 10 then mp + 3 else mp - 9
  (if m ≤ 2 then y + 1 else y, m, d)

/-- Calendar year of a day index: `date_obj.year`. -/
def civilYearN (z : Nat) : Nat := (civilFromDaysN z).1

/-- Weekday of a day index with Monday = 0 (1970-01-01 was a Thursday). -/
def weekdayMon (z : Nat) : Nat := (z + 3) % 7

/-- Day index of the last Sunday of the given 31-day month of year `y`. -/
def lastSundayN (y month : Nat) : Nat :=
  let d31 := daysFromCivilN y month 31
  d31 - (d31 + 4) % 7

/-- UTC offset, in seconds, of `Europe/Zurich` at a UTC instant:
7200 (CEST) between 01:00 UTC of the last Sunday of March and
01:00 UTC of the last Sunday of October, else 3600 (CET).
Models what `pytz`/the IANA database do for this zone in the modern era. -/
def swissOffset (t : Nat) : Nat :=
  let y := civilYearN (dateOfN t)
  let dstStart := lastSundayN y 3 * 86400 + 3600
  let dstEnd := lastSundayN y 10 * 86400 + 3600
  if dstStart ≤ t ∧ t < dstEnd then 7200 else 3600

/-- Local-clock seconds of `utc_dt.astimezone(Europe/Zurich)`: the shifted
count whose `dateOfN`/`hourOfN`/`minutesN` give the Swiss civil values. -/
def swissClock (t : Nat) : Nat := t + swissOffset t

/-- Day index of the Thursday of the ISO week containing `z`. -/
def isoThursday (z : Nat) : Nat := z + 3 - weekdayMon z

/-- ISO week-based year of a day index: `date.isocalendar()[0]`. -/
def isoWeekYear (z : Nat) : Nat := civilYearN (isoThursday z)

/-- ISO week number of a day index: `date.isocalendar()[1]`. -/
def isoWeekNum (z : Nat) : Nat :=
  let th := isoThursday z
  (th - daysFromCivilN (civilYearN th) 1 1) / 7 + 1

/-- Weekly bucket key used by the aggregation scripts
(`fetch-toggl-data-enhanced-fixed.py`, `final-production-data.py`,
`fix-aggregation-counts.py`):
`f"{date_obj.year}-W{date_obj.isocalendar()[1]:02d}"` —
the calendar year paired with the ISO week number. -/
def weekKeyEnhanced (z : Nat) : String :=
  toString (civilYearN z) ++ r"-W" ++ pad2 (isoWeekNum z)

/-- Weekly bucket key used by `backfill_reports_history.py`
(`_build_weekly_monthly_series`): the full ISO `(year, week)` pair,
`iso_year, iso_week, _ = d.isocalendar(); f"{year}-W{week:02d}"`. -/
def weekKeyReports (z : Nat) : String :=
  toString (isoWeekYear z) ++ r"-W" ++ pad2 (isoWeekNum z)

/-- Python `max`/`sorted(...)[-1]` with a numeric key: the element whose key
is maximal, the LAST such element on ties (a stable sort puts the last
encountered of the tied elements last). `none` on the empty list. -/
def pyLastMax {α : Type} (key : α → Nat) : List α → Option α
  | [] => none
  | x :: xs => some (xs.foldl (fun a b => if key a ≤ key b then b else a) x)

/-- Python `max(..., key=...)`: the element whose key is maximal, the FIRST
such element on ties. `none` on the empty list. -/
def pyFirstMax {α : Type} (key : α → Nat) : List α → Option α
  | [] => none
  | x :: xs => some (xs.foldl (fun a b => if key a < key b then b else a) x)

/-- A raw Toggl entry as the scripts see it after JSON parsing, with the
timestamp strings already run through `_parse_iso_datetime`
(`none` models a missing or unparsable field). `duration` is
`entry.get("duration", 0) or 0`. -/
structure RawEntry where
  start : Option Nat
  stop : Option Nat
  duration : Int
  billable : Bool
  tags : List String
deriving DecidableEq

/-- A qualifying entry in a day bucket of `_update_history_daily`
(`fetch-toggl-data.py` / `backfill_history_daily.py`): parsable `start`,
positive `duration`; `stop` may still be missing. -/
structure Entry where
  start : Nat
  stop : Option Nat
  duration : Int
  billable : Bool
  tags : List String
deriving DecidableEq

/-- `"HomeOffice" in e["tags"]`. -/
def is_home (e : Entry) : Bool := e.tags.contains (r"HomeOffice")

/-- `"Commuting" in e["tags"]`. -/
def is_commuting (e : Entry) : Bool := e.tags.contains (r"Commuting")

/-- The filtering loop of `_update_history_daily` that builds `per_day`
values: keep entries with `duration > 0` and a parsable `start`. -/
def normalizeEntries (raw : List RawEntry) : List Entry :=
  raw.filterMap (fun r =>
    if r.duration ≤ 0 then none
    else
      match r.start with
      | none => none
      | some s => some ⟨s, r.stop, r.duration, r.billable, r.tags⟩)

/-- One step of `defaultdict(list)` grouping: append `e` to the bucket of
`key`, creating the bucket at the end on first sight (insertion order). -/
def groupInsert {α : Type} (acc : List (Nat × List α)) (key : Nat) (e : α) :
    List (Nat × List α) :=
  match acc with
  | [] => [(key, [e])]
  | (k, es) :: rest =>
      if k = key then (k, es ++ [e]) :: rest
      else (k, es) :: groupInsert rest key e

/-- Generic `defaultdict(list)` grouping by a key function. -/
def groupByKey {α : Type} (key : α → Nat) (l : List α) : List (Nat × List α) :=
  l.foldl (fun acc e => groupInsert acc (key e) e) []

/-- The `per_day` grouping of `_update_history_daily`: bucket qualifying
entries by `start.date().isoformat()` — the date of the timestamp as
stored (UTC), with no timezone conversion. -/
def groupByDate (entries : List Entry) : List (Nat × List Entry) :=
  groupByKey (fun e => dateOfN e.start) entries

/-- Rules 2 and 3 of the block (the branch taken when Rule 1 does not
reject): comparisons against `last_home["stop"]` raise when that stop is
missing; else reject when a non-home entry starts strictly after it
(Rule 2), and otherwise produce `last_home["stop"]` as `HH:MM` exactly
when the overall last entry of the day is home-office-tagged (Rule 3). -/
def homeOfficeRules23 (entries : List Entry) (lastHome : Entry) :
    Except Unit (Option String) :=
  match lastHome.stop with
  | none => Except.error ()
  | some hstop =>
      if entries.any (fun e => decide (hstop < e.start) && ! is_home e) then
        Except.ok none
      else
        match pyLastMax (fun e => e.start) entries with
        | none => Except.ok none
        | some lastOfDay =>
            if is_home lastOfDay then
              Except.ok (some (fmtHM (minutesN hstop)))
            else
              Except.ok none

/-- The home-office-end-time block of `_update_history_daily`
(`fetch-toggl-data.py` lines 119–146). `last_home`, `last_entry_of_day`
and `last_commuting_any` are `sorted(key=start)[-1]` selections
(`pyLastMax`). A Python comparison of a `datetime` against a missing
(`None`) `stop` raises `TypeError`, modelled by `Except.error ()`:
Rule 1 needs `last_commuting_any["stop"]`, Rules 2 and 3 need
`last_home["stop"]` (`homeOfficeRules23`). -/
def homeOfficeEndTime (entries : List Entry) : Except Unit (Option String) :=
  match pyLastMax (fun e => e.start) (entries.filter (fun e => is_home e)) with
  | none => Except.ok none
  | some lastHome =>
    match pyLastMax (fun e => e.start) (entries.filter (fun e => is_commuting e)) with
    | none => homeOfficeRules23 entries lastHome
    | some lastCommute =>
      match lastCommute.stop with
      | none => Except.error ()
      | some cstop =>
          if cstop < lastHome.start then Except.ok none
          else homeOfficeRules23 entries lastHome

/-- The late-work loop of `_update_history_daily`:
`start.hour >= 20 or (stop and stop.hour >= 20)` for some entry
(the for/break loop is an existence check). -/
def lateWork (entries : List Entry) : Bool :=
  entries.any (fun e =>
    decide (20 ≤ hourOfN e.start) ||
      (match e.stop with
       | some s => decide (20 ≤ hourOfN s)
       | none => false))

/-- Python `round(x, 2)` on an hour value, modelled on `ℚ`
(round to the nearest hundredth). -/
def round2 (q : ℚ) : ℚ := (round (q * 100) : ℤ) / 100

/-- `e["stop"]` of an entry already filtered to have a truthy `stop`. -/
def stopD (e : Entry) : Nat := e.stop.getD 0

/-- One `daily_metrics` record of `history_daily.json`. -/
structure DayRecord where
  date : Nat
  billable_hours : ℚ
  away_from_home_hours : ℚ
  back_home_time : Option String
  home_office_end_time : Option String
  late_work : Bool
  total_entries : Nat
deriving DecidableEq

/-- The per-day metric computation of `_update_history_daily` for one
date bucket: billable hours, away-from-home hours, back-home time
(last commuting entry by `stop`, among entries with a truthy `stop`),
then the fallible home-office-end block, then the late-work flag. -/
def dayRecord (dateKey : Nat) (entries : List Entry) : Except Unit DayRecord :=
  let billable_seconds : Int := (entries.filter (fun e => e.billable)).foldl
    (fun s e => s + e.duration) 0
  let away_seconds : Int := (entries.filter (fun e => ! is_home e)).foldl
    (fun s e => s + e.duration) 0
  let commuting_entries := entries.filter (fun e => is_commuting e && e.stop.isSome)
  let back_home_time :=
    match pyLastMax stopD commuting_entries with
    | none => none
    | some lc => some (fmtHM (minutesN (stopD lc)))
  match homeOfficeEndTime entries with
  | Except.error u => Except.error u
  | Except.ok ho =>
      Except.ok
        { date := dateKey
          billable_hours := round2 ((billable_seconds : ℚ) / 3600)
          away_from_home_hours := round2 ((away_seconds : ℚ) / 3600)
          back_home_time := back_home_time
          home_office_end_time := ho
          late_work := lateWork entries
          total_entries := entries.length }

/-- The aggregation core of `_update_history_daily`: normalize, group by
(UTC) date, compute the per-day record for each bucket. An exception
raised for any day propagates (aborts the run). -/
def updateHistoryDays (raw : List RawEntry) : Except Unit (List (Nat × DayRecord)) :=
  (groupByDate (normalizeEntries raw)).mapM
    (fun p => (dayRecord p.1 p.2).map (fun r => (p.1, r)))

/-- One day's entry of `daily_kpis` as consumed by the aggregation scripts
(`fetch-toggl-data-enhanced-fixed.py` shape: time-of-day values are
decimal hours or `None`; `late_count` is `late_work_frequency.count`). -/
structure DailyKpi where
  billable_sum : ℚ
  away_sum : ℚ
  back_home_time : Option ℚ
  ho_end_time : Option ℚ
  late_count : Nat
  total_entries : Nat
deriving DecidableEq

/-- The per-bucket accumulator shared by the weekly, monthly, and rolling
loops of `aggregate_weekly_data` / `aggregate_monthly_data` /
`calculate_working_days_aggregations`. -/
structure BucketData where
  billable : List ℚ
  away : List ℚ
  back_home : List ℚ
  ho_end : List ℚ
  late_days : Nat
  working_days : Nat
  dates : List Nat
deriving DecidableEq

/-- The fresh `defaultdict` bucket value. -/
def emptyBucket : BucketData := ⟨[], [], [], [], 0, 0, []⟩

/-- Python truthiness of an optional float: `None` and `0.0` are falsy. -/
def truthyQ (v : Option ℚ) : Bool :=
  match v with
  | none => false
  | some q => ! decide (q = 0)

/-- The shared loop body that folds one day into a bucket:
hour sums are appended only when `> 0`, time-of-day values only when
truthy, `late_work_days` counts days with `count > 0`, and the date is
recorded (`aggregate_weekly_data` lines 183–209 and its monthly /
rolling twins). -/
def addDay (b : BucketData) (d : Nat) (k : DailyKpi) : BucketData :=
  { billable := if 0 < k.billable_sum then b.billable ++ [k.billable_sum] else b.billable
    away := if 0 < k.away_sum then b.away ++ [k.away_sum] else b.away
    back_home :=
      match k.back_home_time with
      | some q => if q = 0 then b.back_home else b.back_home ++ [q]
      | none => b.back_home
    ho_end :=
      match k.ho_end_time with
      | some q => if q = 0 then b.ho_end else b.ho_end ++ [q]
      | none => b.ho_end
    late_days := if 0 < k.late_count then b.late_days + 1 else b.late_days
    working_days := b.working_days + 1
    dates := b.dates ++ [d] }

/-- `defaultdict` upsert for string-keyed buckets: fold the day into the
existing bucket, or create one at the end on first sight. -/
def bucketUpsert (acc : List (String × BucketData)) (key : String) (d : Nat)
    (k : DailyKpi) : List (String × BucketData) :=
  match acc with
  | [] => [(key, addDay emptyBucket d k)]
  | (w, b) :: rest =>
      if w = key then (w, addDay b d k) :: rest
      else (w, b) :: bucketUpsert rest key d k

/-- The grouping phase of `aggregate_weekly_data`: fold each daily KPI
into the bucket of its weekly key `f"{year}-W{isoweek:02d}"`.
Days are keyed by their day index (the `date_str` of the code). -/
def aggregateWeeklyData (kpis : List (Nat × DailyKpi)) : List (String × BucketData) :=
  kpis.foldl (fun acc p => bucketUpsert acc (weekKeyEnhanced p.1) p.1 p.2) []

/-- `sorted(daily_kpis.keys(), reverse=True)` on ISO date keys
(numeric descending order coincides with string descending order). -/
def sortedDatesDesc (kpis : List (Nat × DailyKpi)) : List Nat :=
  (kpis.map Prod.fst).mergeSort (fun a b => decide (b ≤ a))

/-- The rolling-window key `f"{period}WD"`. -/
def wdKey (period : Nat) : String := toString period ++ r"WD"

/-- `calculate_working_days_aggregations`
(`fetch-toggl-data-enhanced-fixed.py` lines 347–429,
`final-production-data.py` lines 325–395): for each period in
`[5, 10, 30]`, only when at least `period` dates exist, take the first
`period` of the descending-sorted dates and fold their KPIs into a
bucket (dict lookup by date; the `none` branch is unreachable). -/
def calculateWorkingDaysAggregations (kpis : List (Nat × DailyKpi)) :
    List (String × BucketData) :=
  ([5, 10, 30]).filterMap (fun period =>
    if period ≤ (sortedDatesDesc kpis).length then
      let period_dates := (sortedDatesDesc kpis).take period
      some (wdKey period,
        period_dates.foldl
          (fun b d =>
            match kpis.lookup d with
            | some k => addDay b d k
            | none => b)
          emptyBucket)
    else none)

/-- Python `dict.update` (`save_aggregated_data`,
`fetch-toggl-data-enhanced-fixed.py` lines 468–495): keys already present
keep their position and take the new value; keys only in the new dict are
appended in the new dict's order. The daily merge of
`_update_history_daily` (`existing_days[date_str] = day_record`) has the
same per-key semantics. -/
def dictUpdate {V : Type} (old new : List (String × V)) : List (String × V) :=
  old.map (fun p =>
    match new.lookup p.1 with
    | some v => (p.1, v)
    | none => p) ++
    new.filter (fun p => (old.lookup p.1).isNone)

/-- `int(q)` for a nonnegative rational: truncation toward zero. -/
def intTrunc (q : ℚ) : Nat := (Int.floor q).toNat

/-- `decimal_to_time` / `decimal_hours_to_time`: decimal hours back to
`HH:MM` (`hours = int(x)`, `minutes = int((x - hours) * 60)`). -/
def decimalToTime (q : ℚ) : String :=
  let hours := intTrunc q
  let minutes := intTrunc ((q - hours) * 60)
  pad2 hours ++ r":" ++ pad2 minutes

/-- `statistics.mean`: arithmetic mean (callers guard against `[]`). -/
def qMean (l : List ℚ) : ℚ := l.sum / l.length

/-- `statistics.median`: middle of the sorted values, or the average of
the two middle values for an even count. -/
def qMedian (l : List ℚ) : ℚ :=
  let s := l.mergeSort (fun a b => decide (a ≤ b))
  if l.length % 2 = 1 then s.getD (l.length / 2) 0
  else (s.getD (l.length / 2 - 1) 0 + s.getD (l.length / 2) 0) / 2

/-- `min(l)` for a nonempty list of rationals. -/
def qMin (l : List ℚ) : ℚ := l.foldr min (l.getD 0 0)

/-- `max(l)` for a nonempty list of rationals. -/
def qMax (l : List ℚ) : ℚ := l.foldr max (l.getD 0 0)

/-- The output record of `calculate_time_stats_with_count`
(`fix-aggregation-counts.py` lines 21–47); the empty Python dict `{}` is
the record with every field absent (`none`). -/
structure TimeStatsC where
  mean : Option String
  median : Option String
  earliest : Option String
  latest : Option String
  count : Option Nat
deriving DecidableEq

/-- `{}`: the record returned for empty input. -/
def emptyTimeStatsC : TimeStatsC := ⟨none, none, none, none, none⟩

/-- An `HH:MM` string is modelled as an `(hours, minutes)` pair; a list
element that is Python-falsy (`None` / empty string) is `none`. -/
def timeDecimal (p : Nat × Nat) : ℚ := (p.1 : ℚ) + (p.2 : ℚ) / 60

/-- `calculate_time_stats_with_count` (`fix-aggregation-counts.py`):
keep the truthy time strings, convert to decimal hours, and return
mean / median / earliest / latest as `HH:MM` plus the ACTUAL COUNT
`len(decimal_times)`; `{}` when nothing survives. Total — it never
raises on empty input. -/
def timeStatsWithCount (time_strings : List (Option (Nat × Nat))) : TimeStatsC :=
  if time_strings.isEmpty then emptyTimeStatsC
  else
    let decimal_times := time_strings.filterMap (fun t => t.map timeDecimal)
    if decimal_times.isEmpty then emptyTimeStatsC
    else
      { mean := some (decimalToTime (qMean decimal_times))
        median := some (decimalToTime (qMedian decimal_times))
        earliest := some (decimalToTime (qMin decimal_times))
        latest := some (decimalToTime (qMax decimal_times))
        count := some decimal_times.length }

/-- The output record of `calculate_time_stats_from_strings`
(`final-production-data.py` lines 158–174): same statistics but with no
count field at all. -/
structure TimeStatsNC where
  mean : Option String
  median : Option String
  earliest : Option String
  latest : Option String
deriving DecidableEq

/-- `calculate_time_stats_from_strings`: `{}` on empty or all-falsy
input, else the four statistics. Total — it never raises on empty
input. -/
def timeStatsFromStrings (time_strings : List (Option (Nat × Nat))) : TimeStatsNC :=
  if time_strings.isEmpty then ⟨none, none, none, none⟩
  else
    let decimal_times := time_strings.filterMap (fun t => t.map timeDecimal)
    if decimal_times.isEmpty then ⟨none, none, none, none⟩
    else
      { mean := some (decimalToTime (qMean decimal_times))
        median := some (decimalToTime (qMedian decimal_times))
        earliest := some (decimalToTime (qMin decimal_times))
        latest := some (decimalToTime (qMax decimal_times)) }

/-- A qualifying entry of `calculate_final_daily_kpis`
(`final-production-data.py` lines 65–102): parsable `start` AND `stop`,
positive duration; carries the UTC instants and their Swiss local-clock
conversions exactly as the code stores `start_utc` / `stop_utc` /
`start_swiss` / `stop_swiss`. -/
structure FEntry where
  start_utc : Nat
  stop_utc : Nat
  start_swiss : Nat
  stop_swiss : Nat
  duration : Int
  billable : Bool
  tags : List String
deriving DecidableEq

/-- `"HomeOffice" in entry.get('tags', [])` for a final-production entry. -/
def fIsHome (e : FEntry) : Bool := e.tags.contains (r"HomeOffice")

/-- `"Commuting" in entry.get('tags', [])` for a final-production entry. -/
def fIsCommuting (e : FEntry) : Bool := e.tags.contains (r"Commuting")

/-- The entry filter + conversion of `calculate_final_daily_kpis`: drop
entries with a missing `start` or `stop` or non-positive duration, and
attach the `astimezone(Europe/Zurich)` conversions. -/
def normalizeFinal (raw : List RawEntry) : List FEntry :=
  raw.filterMap (fun r =>
    match r.start, r.stop with
    | some s, some p =>
        if r.duration ≤ 0 then none
        else some ⟨s, p, swissClock s, swissClock p, r.duration, r.billable, r.tags⟩
    | _, _ => none)

/-- The day grouping of `calculate_final_daily_kpis`:
`date_str = start_time_swiss.strftime('%Y-%m-%d')` — buckets by the
SWISS local date of the start. -/
def groupFinal (raw : List RawEntry) : List (Nat × List FEntry) :=
  groupByKey (fun e => dateOfN e.start_swiss) (normalizeFinal raw)

/-- The late-work flag of `calculate_final_daily_kpis`
(`late_work_count` is set to `1` when any entry has Swiss start or stop
hour ≥ 20, else stays `0`). -/
def lateCountFinal (l : List FEntry) : Nat :=
  if l.any (fun e =>
      decide (20 ≤ hourOfN e.start_swiss) || decide (20 ≤ hourOfN e.stop_swiss))
  then 1 else 0

/-- The pure-day home-office-end criterion of `calculate_final_daily_kpis`
(`final-production-data.py` lines 119–125): non-null iff home-office
entries exist and no entry lacks both the HomeOffice and the Commuting
tag; the value is the Swiss `HH:MM` of the latest `stop_swiss` among the
home-office entries (`max(..., key=stop_swiss)` keeps the first of tied
maxima). -/
def pureHomeOfficeEnd (l : List FEntry) : Option String :=
  let home_office_entries := l.filter (fun e => fIsHome e)
  let non_home_entries := l.filter (fun e => ! fIsHome e && ! fIsCommuting e)
  if home_office_entries.isEmpty || ! non_home_entries.isEmpty then none
  else
    match pyFirstMax (fun e => e.stop_swiss) home_office_entries with
    | some lastHomeEntry => some (fmtHM (minutesN lastHomeEntry.stop_swiss))
    | none => none

/-- The three-rule protocol applied to final-production entries: the same
`(start, stop, tags)` data handed to `_update_history_daily`'s rules,
with the Swiss local clocks as the timestamps. -/
def toEntry (e : FEntry) : Entry :=
  ⟨e.start_swiss, some e.stop_swiss, e.duration, e.billable, e.tags⟩

/-- First-some choice on options (`Option.orElse` without laziness),
used to state the merge contract of `dictUpdate`. -/
def optOr {α : Type} : Option α → Option α → Option α
  | some a, _ => some a
  | none, b => b

/-- Rule 1 of the protocol, as the spec states it: a commuting-tagged
entry exists and the latest-starting home-office entry's start is
strictly after the latest-starting commuting entry's stop. -/
def rule1Holds (entries : List Entry) (lastHome : Entry) : Prop :=
  ∃ lc, pyLastMax (fun e => e.start) (entries.filter (fun e => is_commuting e)) = some lc ∧
    ∃ cs, lc.stop = some cs ∧ cs < lastHome.start

/-- Rule 2 of the protocol, as the spec states it: some non-home-office
entry starts strictly after the latest-starting home-office entry's
stop. -/
def rule2Holds (entries : List Entry) (hstop : Nat) : Prop :=
  ∃ e ∈ entries, is_home e = false ∧ hstop < e.start

/-- Rule 3's condition: the overall last entry of the day (latest start)
is home-office-tagged. -/
def lastOfDayIsHome (entries : List Entry) : Prop :=
  ∃ ld, pyLastMax (fun e => e.start) entries = some ld ∧ is_home ld = true

/-- Seconds-since-epoch of `2025-07-17 hh:mm` (UTC or local clock). -/
def jul17 (hh mm : Nat) : Nat := 20286 * 86400 + hh * 3600 + mm * 60

/-- The spec's pure home-office scenario day:
`[09:00–12:00, HomeOffice, billable]`, `[13:00–17:30, HomeOffice,
billable]`. -/
def exDayPure : List Entry :=
  [⟨jul17 9 0, some (jul17 12 0), 10800, true, [r"HomeOffice"]⟩,
   ⟨jul17 13 0, some (jul17 17 30), 16200, true, [r"HomeOffice"]⟩]

/-- The spec's commute-interrupted scenario day, as final-production
entries on the Swiss clock: `[09:00–12:00, HomeOffice]`,
`[13:00–14:00, Commuting]`, `[14:30–18:00, HomeOffice]`. -/
def exDayMixed : List FEntry :=
  [⟨jul17 7 0, jul17 10 0, jul17 9 0, jul17 12 0, 10800, true, [r"HomeOffice"]⟩,
   ⟨jul17 11 0, jul17 12 0, jul17 13 0, jul17 14 0, 3600, false, [r"Commuting"]⟩,
   ⟨jul17 12 30, jul17 16 0, jul17 14 30, jul17 18 0, 12600, true, [r"HomeOffice"]⟩]

/-- An all-home-office final-production day used as a witness input. -/
def exDayAllHome : List FEntry :=
  [⟨jul17 7 0, jul17 10 0, jul17 9 0, jul17 12 0, 10800, true, [r"HomeOffice"]⟩,
   ⟨jul17 11 0, jul17 15 30, jul17 13 0, jul17 17 30, 16200, true, [r"HomeOffice"]⟩]

/-- The latest-starting entry of `exDayAllHome`. -/
def exDayAllHomeLast : FEntry :=
  ⟨jul17 11 0, jul17 15 30, jul17 13 0, jul17 17 30, 16200, true, [r"HomeOffice"]⟩

/-- The latest-starting entry of `exDayPure`. -/
def exDayPureLast : Entry :=
  ⟨jul17 13 0, some (jul17 17 30), 16200, true, [r"HomeOffice"]⟩

/-- A daily KPI whose billable value is present and equal to zero. -/
def kpiZeroBillable : DailyKpi := ⟨0, 5, none, none, 0, 3⟩

/-- A five-day corpus of daily KPIs used as a witness input. -/
def exKpisFive : List (Nat × DailyKpi) :=
  [(20282, ⟨1, 2, none, none, 0, 1⟩),
   (20283, ⟨2, 3, some 18, none, 0, 2⟩),
   (20284, ⟨0, 4, none, some 17, 1, 3⟩),
   (20285, ⟨3, 0, none, none, 0, 1⟩),
   (20286, ⟨4, 1, some 19, none, 1, 2⟩)]

/-- The bucket built for one rolling window: the fold of
`calculate_working_days_aggregations` over the selected dates. -/
def windowBucket (kpis : List (Nat × DailyKpi)) (period : Nat) : BucketData :=
  ((sortedDatesDesc kpis).take period).foldl
    (fun b d =>
      match kpis.lookup d with
      | some k => addDay b d k
      | none => b)
    emptyBucket

/-- A raw entry starting `2025-07-17 22:30 UTC` (= `2025-07-18 00:30`
Swiss local time, the zone being on CEST). -/
def exRawLate : List RawEntry :=
  [⟨some (jul17 22 30), some (jul17 23 0), 1800, false, []⟩]

/-- The final-production image of the `exRawLate` entry. -/
def feLate : FEntry :=
  ⟨jul17 22 30, jul17 23 0, swissClock (jul17 22 30), swissClock (jul17 23 0),
    1800, false, []⟩

end DS

namespace DS

-- sanity checks for the calendar embedding (concrete evaluations)
example : daysFromCivilN 1970 1 1 = 0 := by decide
example : civilFromDaysN 0 = (1970, 1, 1) := by decide
example : daysFromCivilN 2025 7 17 = 20286 := by decide
example : civilFromDaysN 20286 = (2025, 7, 17) := by decide
example : weekdayMon 20286 = 3 := by decide
example : lastSundayN 2025 3 = daysFromCivilN 2025 3 30 := by decide
example : lastSundayN 2025 10 = daysFromCivilN 2025 10 26 := by decide
example : isoWeekNum (daysFromCivilN 2025 6 30) = 27 := by decide
example : isoWeekNum (daysFromCivilN 2025 12 29) = 1 := by decide
example : isoWeekYear (daysFromCivilN 2025 12 29) = 2026 := by decide
example : weekKeyEnhanced (daysFromCivilN 2025 12 29) = r"2025-W01" := by decide
example : fmtHM 1058 = r"17:38" := by decide

-- scenario sanity checks for the daily aggregation embedding
-- a helper timestamp: seconds of 2025-07-17 hh:mm UTC
example :
    homeOfficeEndTime
      [⟨20286 * 86400 + 9 * 3600, some (20286 * 86400 + 12 * 3600), 10800, true, [r"HomeOffice"]⟩,
       ⟨20286 * 86400 + 13 * 3600, some (20286 * 86400 + 17 * 3600 + 1800), 16200, true, [r"HomeOffice"]⟩] =
      Except.ok (some (r"17:30")) := by decide

example :
    homeOfficeEndTime
      [⟨20286 * 86400 + 9 * 3600, some (20286 * 86400 + 12 * 3600), 10800, true, [r"HomeOffice"]⟩,
       ⟨20286 * 86400 + 13 * 3600, some (20286 * 86400 + 14 * 3600), 3600, false, [r"Commuting"]⟩,
       ⟨20286 * 86400 + 14 * 3600 + 1800, some (20286 * 86400 + 18 * 3600), 12600, true, [r"HomeOffice"]⟩] =
      Except.ok none := by decide

example :
    lateWork
      [⟨20286 * 86400 + 4 * 3600 + 37 * 60, some (20286 * 86400 + 8 * 3600), 12180, false, [r"Commuting"]⟩,
       ⟨20286 * 86400 + 20 * 3600 + 10 * 60, some (20286 * 86400 + 20 * 3600 + 38 * 60), 1680, false, [r"Commuting"]⟩] =
      true := by decide

example :
    updateHistoryDays
      [⟨some (20286 * 86400 + 9 * 3600), none, 3600, false, [r"HomeOffice"]⟩] =
      Except.error () := by decide

/-! ### Helper lemmas about the Python `max` / stable-sort selections -/

theorem foldlPick_mem_le {α : Type} (key : α → Nat) :
    ∀ (l : List α) (x : α),
      (l.foldl (fun a b => if key a ≤ key b then b else a) x = x ∨
        l.foldl (fun a b => if key a ≤ key b then b else a) x ∈ l) ∧
      key x ≤ key (l.foldl (fun a b => if key a ≤ key b then b else a) x) ∧
      ∀ y ∈ l, key y ≤ key (l.foldl (fun a b => if key a ≤ key b then b else a) x) := by
  intro l
  induction l with
  | nil => intro x; refine ⟨Or.inl rfl, le_refl _, ?_⟩; intro y hy; simp at hy
  | cons y ys ih =>
      intro x
      rw [List.foldl_cons]
      obtain ⟨ihmem, ihle, ihall⟩ := ih (if key x ≤ key y then y else x)
      have hx : key x ≤ key (if key x ≤ key y then y else x) := by
        by_cases h : key x ≤ key y <;> simp [h]
      have hy : key y ≤ key (if key x ≤ key y then y else x) := by
        by_cases h : key x ≤ key y <;> simp [h] <;> omega
      refine ⟨?_, le_trans hx ihle, ?_⟩
      · rcases ihmem with h | h
        · rw [h]
          by_cases hc : key x ≤ key y
          · simp [hc]
          · simp [hc]
        · exact Or.inr (List.mem_cons_of_mem _ h)
      · intro z hz
        rcases List.mem_cons.mp hz with h | h
        · subst h; exact le_trans hy ihle
        · exact ihall z h

theorem pyLastMax_mem {α : Type} (key : α → Nat) (l : List α) (m : α)
    (h : pyLastMax key l = some m) : m ∈ l := by
  cases l with
  | nil => simp [pyLastMax] at h
  | cons x xs =>
      simp only [pyLastMax, Option.some.injEq] at h
      subst h
      rcases (foldlPick_mem_le key xs x).1 with h | h
      · rw [h]; exact List.mem_cons_self _ _
      · exact List.mem_cons_of_mem _ h

theorem pyLastMax_le {α : Type} (key : α → Nat) (l : List α) (m : α)
    (h : pyLastMax key l = some m) : ∀ y ∈ l, key y ≤ key m := by
  cases l with
  | nil => simp [pyLastMax] at h
  | cons x xs =>
      simp only [pyLastMax, Option.some.injEq] at h
      subst h
      intro y hy
      rcases List.mem_cons.mp hy with h | h
      · subst h; exact (foldlPick_mem_le key xs y).2.1
      · exact (foldlPick_mem_le key xs x).2.2 y h

theorem pyLastMax_eq_none_iff {α : Type} (key : α → Nat) (l : List α) :
    pyLastMax key l = none ↔ l = [] := by
  cases l <;> simp [pyLastMax]

theorem foldlPickS_mem_le {α : Type} (key : α → Nat) :
    ∀ (l : List α) (x : α),
      (l.foldl (fun a b => if key a < key b then b else a) x = x ∨
        l.foldl (fun a b => if key a < key b then b else a) x ∈ l) ∧
      key x ≤ key (l.foldl (fun a b => if key a < key b then b else a) x) ∧
      ∀ y ∈ l, key y ≤ key (l.foldl (fun a b => if key a < key b then b else a) x) := by
  intro l
  induction l with
  | nil => intro x; refine ⟨Or.inl rfl, le_refl _, ?_⟩; intro y hy; simp at hy
  | cons y ys ih =>
      intro x
      rw [List.foldl_cons]
      obtain ⟨ihmem, ihle, ihall⟩ := ih (if key x < key y then y else x)
      have hx : key x ≤ key (if key x < key y then y else x) := by
        by_cases h : key x < key y <;> simp [h] <;> omega
      have hy : key y ≤ key (if key x < key y then y else x) := by
        by_cases h : key x < key y <;> simp [h] <;> omega
      refine ⟨?_, le_trans hx ihle, ?_⟩
      · rcases ihmem with h | h
        · rw [h]
          by_cases hc : key x < key y
          · simp [hc]
          · simp [hc]
        · exact Or.inr (List.mem_cons_of_mem _ h)
      · intro z hz
        rcases List.mem_cons.mp hz with h | h
        · subst h; exact le_trans hy ihle
        · exact ihall z h

theorem pyFirstMax_mem {α : Type} (key : α → Nat) (l : List α) (m : α)
    (h : pyFirstMax key l = some m) : m ∈ l := by
  cases l with
  | nil => simp [pyFirstMax] at h
  | cons x xs =>
      simp only [pyFirstMax, Option.some.injEq] at h
      subst h
      rcases (foldlPickS_mem_le key xs x).1 with h | h
      · rw [h]; exact List.mem_cons_self _ _
      · exact List.mem_cons_of_mem _ h

theorem pyFirstMax_le {α : Type} (key : α → Nat) (l : List α) (m : α)
    (h : pyFirstMax key l = some m) : ∀ y ∈ l, key y ≤ key m := by
  cases l with
  | nil => simp [pyFirstMax] at h
  | cons x xs =>
      simp only [pyFirstMax, Option.some.injEq] at h
      subst h
      intro y hy
      rcases List.mem_cons.mp hy with h | h
      · subst h; exact (foldlPickS_mem_le key xs y).2.1
      · exact (foldlPickS_mem_le key xs x).2.2 y h

theorem foldlPick_map {α β : Type} (key : β → Nat) (f : α → β) :
    ∀ (l : List α) (x : α),
      (l.map f).foldl (fun a b => if key a ≤ key b then b else a) (f x) =
        f (l.foldl (fun a b => if key (f a) ≤ key (f b) then b else a) x) := by
  intro l
  induction l with
  | nil => intro x; rfl
  | cons y ys ih =>
      intro x
      simp only [List.map_cons, List.foldl_cons]
      rw [← apply_ite f, ih]

theorem pyLastMax_map {α β : Type} (key : β → Nat) (f : α → β) (l : List α) :
    pyLastMax key (l.map f) = (pyLastMax (fun a => key (f a)) l).map f := by
  cases l with
  | nil => rfl
  | cons x xs => simp [pyLastMax, foldlPick_map key f xs x]

/-! ### Helper lemmas about association-list lookups and the dict merge -/

theorem lookup_append {K V : Type} [BEq K] [LawfulBEq K] (a b : List (K × V)) (k : K) :
    (a ++ b).lookup k = optOr (a.lookup k) (b.lookup k) := by
  induction a with
  | nil => simp [optOr, List.lookup]
  | cons p t ih =>
      rcases p with ⟨k₀, v₀⟩
      by_cases h : k = k₀
      · subst h; simp [List.lookup, optOr]
      · have hb : (k == k₀) = false := beq_eq_false_iff_ne.mpr h
        simp [List.lookup, hb, ih]

theorem lookup_isSome_of_mem {K V : Type} [BEq K] [LawfulBEq K]
    (l : List (K × V)) (k : K) (h : k ∈ l.map Prod.fst) :
    (l.lookup k).isSome := by
  induction l with
  | nil => simp at h
  | cons p t ih =>
      rcases p with ⟨k₀, v₀⟩
      by_cases hk : k = k₀
      · subst hk; simp [List.lookup]
      · have hb : (k == k₀) = false := beq_eq_false_iff_ne.mpr hk
        have hmem : k ∈ t.map Prod.fst := by
          simp at h
          rcases h with h | h
          · exact absurd h hk
          · simpa using h
        simp only [List.lookup, hb]
        exact ih hmem

theorem lookup_filter_congr {K V : Type} [BEq K] [LawfulBEq K]
    (P Q : K × V → Bool) (l : List (K × V)) (k : K)
    (h : ∀ p : K × V, p.1 = k → P p = Q p) :
    (l.filter P).lookup k = (l.filter Q).lookup k := by
  induction l with
  | nil => rfl
  | cons p t ih =>
      by_cases hk : p.1 = k
      · have hPQ : P p = Q p := h p hk
        by_cases hP : P p = true
        · have hQ : Q p = true := hPQ ▸ hP
          have hb : (k == p.1) = true := beq_iff_eq.mpr hk.symm
          simp [List.filter_cons, hP, hQ, List.lookup, hb]
        · have hQ : Q p ≠ true := fun hq => hP (hPQ ▸ hq)
          simp only [List.filter_cons, if_neg hP, if_neg hQ]
          exact ih
      · have hb : (k == p.1) = false :=
          beq_eq_false_iff_ne.mpr (fun he => hk he.symm)
        by_cases hP : P p = true
        · by_cases hQ : Q p = true
          · simp [List.filter_cons, hP, hQ, List.lookup, hb, ih]
          · simp [List.filter_cons, hP, if_neg hQ, List.lookup, hb, ih]
        · by_cases hQ : Q p = true
          · simp [List.filter_cons, if_neg hP, hQ, List.lookup, hb, ih]
          · simp [List.filter_cons, if_neg hP, if_neg hQ, ih]

theorem dictUpdate_lookup {V : Type} (old new : List (String × V)) (k : String) :
    (dictUpdate old new).lookup k = optOr (new.lookup k) (old.lookup k) := by
  induction old with
  | nil =>
      unfold dictUpdate
      have hfil :
          (new.filter (fun p => (List.lookup p.1 ([] : List (String × V))).isNone)) = new := by
        simp [List.lookup]
      rw [List.map_nil, List.nil_append, hfil]
      cases h : new.lookup k <;> simp [optOr, List.lookup]
  | cons p t ih =>
      rcases p with ⟨k₀, v₀⟩
      by_cases hk : k = k₀
      · subst hk
        cases hnew : new.lookup k with
        | some v => simp [dictUpdate, List.lookup, hnew, optOr]
        | none => simp [dictUpdate, List.lookup, hnew, optOr]
      · have hb : (k == k₀) = false := beq_eq_false_iff_ne.mpr hk
        have hcongr :
            (new.filter (fun p =>
              (List.lookup p.1 ((k₀, v₀) :: t)).isNone)).lookup k =
            (new.filter (fun p => (List.lookup p.1 t).isNone)).lookup k := by
          apply lookup_filter_congr
          intro p hp
          rw [hp]
          simp only [List.lookup, hb]
        obtain ⟨w, hw⟩ :
            ∃ w, (match new.lookup k₀ with
              | some v => ((k₀, v) : String × V)
              | none => (k₀, v₀)) = (k₀, w) := by
          cases new.lookup k₀ with
          | some v => exact ⟨v, rfl⟩
          | none => exact ⟨v₀, rfl⟩
        have htail : List.lookup k ((k₀, v₀) :: t) = List.lookup k t := by
          simp only [List.lookup, hb]
        unfold dictUpdate
        rw [List.map_cons, List.cons_append]
        have hfst : ((k₀, v₀) : String × V).1 = k₀ := rfl
        rw [hfst, hw]
        have hstep : ∀ rest : List (String × V),
            List.lookup k ((k₀, w) :: rest) = List.lookup k rest := by
          intro rest
          simp only [List.lookup, hb]
        rw [hstep, lookup_append, hcongr, ← lookup_append]
        rw [show (t.map (fun (p : String × V) => match new.lookup p.1 with
              | some v => (p.1, v)
              | none => p) ++
            new.filter (fun p => (List.lookup p.1 t).isNone)) = dictUpdate t new from rfl]
        rw [ih, htail]

/-! ### Helper lemmas about `defaultdict(list)` grouping -/

theorem groupInsert_keyed {α : Type} (key : α → Nat) (e : α) (k : Nat)
    (hk : key e = k) :
    ∀ (acc : List (Nat × List α)),
      (∀ p ∈ acc, ∀ x ∈ p.2, key x = p.1) →
      ∀ p ∈ groupInsert acc k e, ∀ x ∈ p.2, key x = p.1 := by
  intro acc
  induction acc with
  | nil =>
      intro _ p hp x hx
      simp [groupInsert] at hp
      subst hp
      simp at hx
      subst hx
      exact hk
  | cons q t ih =>
      rcases q with ⟨k₀, es⟩
      intro hinv p hp x hx
      unfold groupInsert at hp
      by_cases h : k₀ = k
      · rw [if_pos h] at hp
        rcases List.mem_cons.mp hp with h1 | h1
        · subst h1
          rcases List.mem_append.mp hx with h2 | h2
          · exact hinv (k₀, es) (List.mem_cons_self _ _) x h2
          · simp at h2; subst h2; rw [hk, h]
        · exact hinv p (List.mem_cons_of_mem _ h1) x hx
      · rw [if_neg h] at hp
        rcases List.mem_cons.mp hp with h1 | h1
        · subst h1
          exact hinv (k₀, es) (List.mem_cons_self _ _) x hx
        · exact ih (fun q hq => hinv q (List.mem_cons_of_mem _ hq)) p h1 x hx

theorem groupByKey_keyed {α : Type} (key : α → Nat) (l : List α) :
    ∀ p ∈ groupByKey key l, ∀ x ∈ p.2, key x = p.1 := by
  unfold groupByKey
  suffices h : ∀ (acc : List (Nat × List α)),
      (∀ p ∈ acc, ∀ x ∈ p.2, key x = p.1) →
      ∀ p ∈ l.foldl (fun acc e => groupInsert acc (key e) e) acc,
        ∀ x ∈ p.2, key x = p.1 by
    exact h [] (by intro p hp; simp at hp)
  induction l with
  | nil => intro acc hacc; simpa using hacc
  | cons e es ih =>
      intro acc hacc
      rw [List.foldl_cons]
      exact ih _ (groupInsert_keyed key e (key e) rfl acc hacc)

theorem filterMap_map_opt {α β : Type} (g : α → β) :
    ∀ ts : List (Option α),
      ts.filterMap (fun t => t.map g) = (ts.filterMap id).map g := by
  intro ts
  induction ts with
  | nil => rfl
  | cons t rest ih =>
      cases t with
      | none => simpa using ih
      | some a => simp [ih]

/-! ### Helper lemmas about the shared bucket-accumulation loop -/

theorem foldl_addDay_billable :
    ∀ (l : List (Nat × DailyKpi)) (b : BucketData),
      (l.foldl (fun b p => addDay b p.1 p.2) b).billable =
        b.billable ++
          (l.filter (fun p => decide (0 < p.2.billable_sum))).map
            (fun p => p.2.billable_sum) := by
  intro l
  induction l with
  | nil => intro b; simp
  | cons p rest ih =>
      intro b
      rw [List.foldl_cons, ih]
      by_cases h : 0 < p.2.billable_sum
      · simp [addDay, List.filter_cons, h]
      · simp [addDay, List.filter_cons, h]

theorem foldl_addDay_back_home :
    ∀ (l : List (Nat × DailyKpi)) (b : BucketData),
      (l.foldl (fun b p => addDay b p.1 p.2) b).back_home =
        b.back_home ++
          l.filterMap (fun p =>
            match p.2.back_home_time with
            | some q => if q = 0 then none else some q
            | none => none) := by
  intro l
  induction l with
  | nil => intro b; simp
  | cons p rest ih =>
      intro b
      rw [List.foldl_cons, ih]
      cases hbh : p.2.back_home_time with
      | none => simp [addDay, List.filterMap_cons, hbh]
      | some q =>
          by_cases hq : q = 0
          · simp [addDay, List.filterMap_cons, hbh, hq]
          · simp [addDay, List.filterMap_cons, hbh, hq]

theorem foldl_addDay_working_days :
    ∀ (l : List (Nat × DailyKpi)) (b : BucketData),
      (l.foldl (fun b p => addDay b p.1 p.2) b).working_days =
        b.working_days + l.length := by
  intro l
  induction l with
  | nil => intro b; simp
  | cons p rest ih =>
      intro b
      rw [List.foldl_cons, ih]
      simp [addDay]
      omega

theorem bucketUpsert_lookup :
    ∀ (acc : List (String × BucketData)) (key : String) (d : Nat) (k : DailyKpi)
      (w : String),
      (bucketUpsert acc key d k).lookup w =
        if key = w then some (addDay ((acc.lookup w).getD emptyBucket) d k)
        else acc.lookup w := by
  intro acc
  induction acc with
  | nil =>
      intro key d k w
      by_cases h : key = w
      · subst h; simp [bucketUpsert, List.lookup]
      · have hb : (w == key) = false := beq_eq_false_iff_ne.mpr (fun he => h he.symm)
        simp [bucketUpsert, List.lookup, hb, h]
  | cons q t ih =>
      rcases q with ⟨w₀, b₀⟩
      intro key d k w
      unfold bucketUpsert
      by_cases h₀ : w₀ = key
      · subst h₀
        rw [if_pos rfl]
        by_cases hw : w₀ = w
        · subst hw
          simp [List.lookup]
        · have hb : (w == w₀) = false := beq_eq_false_iff_ne.mpr (fun he => hw he.symm)
          simp [List.lookup, hb, hw]
      · rw [if_neg h₀]
        by_cases hw : w = w₀
        · subst hw
          have hkw : ¬ key = w := fun he => h₀ he.symm
          simp [List.lookup, hkw]
        · have hb : (w == w₀) = false := beq_eq_false_iff_ne.mpr hw
          simp only [List.lookup, hb]
          rw [ih]

theorem aggregateWeeklyData_lookup (kpis : List (Nat × DailyKpi)) (w : String) :
    (aggregateWeeklyData kpis).lookup w =
      (if (kpis.filter (fun p => decide (weekKeyEnhanced p.1 = w))).isEmpty then none
       else some ((kpis.filter (fun p => decide (weekKeyEnhanced p.1 = w))).foldl
         (fun b p => addDay b p.1 p.2) emptyBucket)) := by
  induction kpis using List.reverseRecOn with
  | nil => simp [aggregateWeeklyData]
  | append_singleton kpis p ih =>
      have hstep : aggregateWeeklyData (kpis ++ [p]) =
          bucketUpsert (aggregateWeeklyData kpis) (weekKeyEnhanced p.1) p.1 p.2 := by
        unfold aggregateWeeklyData
        rw [List.foldl_append]
        rfl
      rw [hstep, bucketUpsert_lookup, List.filter_append]
      by_cases hwk : weekKeyEnhanced p.1 = w
      · rw [if_pos hwk, ih]
        have hfp : List.filter (fun q => decide (weekKeyEnhanced q.1 = w)) [p] = [p] := by
          simp [hwk]
        rw [hfp]
        by_cases hsel : (kpis.filter (fun q => decide (weekKeyEnhanced q.1 = w))).isEmpty
        · have hnil : kpis.filter (fun q => decide (weekKeyEnhanced q.1 = w)) = [] :=
            List.isEmpty_iff.mp hsel
          rw [hnil]
          simp
        · rw [if_neg hsel]
          have hne : ((kpis.filter (fun q => decide (weekKeyEnhanced q.1 = w))) ++ [p]).isEmpty = false := by
            simp
          simp only [hne, Bool.false_eq_true, if_false, Option.getD_some]
          rw [List.foldl_append]
          rfl
      · rw [if_neg hwk, ih]
        have hfp : List.filter (fun q => decide (weekKeyEnhanced q.1 = w)) [p] = [] := by
          simp [hwk]
        rw [hfp, List.append_nil]

/-! ### Helper lemmas about the rolling-window date selection -/

theorem sortedDatesDesc_perm (kpis : List (Nat × DailyKpi)) :
    (sortedDatesDesc kpis).Perm (kpis.map Prod.fst) :=
  List.mergeSort_perm _ _

theorem sortedDatesDesc_length (kpis : List (Nat × DailyKpi)) :
    (sortedDatesDesc kpis).length = kpis.length := by
  rw [(sortedDatesDesc_perm kpis).length_eq, List.length_map]

theorem sortedDatesDesc_sorted (kpis : List (Nat × DailyKpi)) :
    (sortedDatesDesc kpis).Pairwise (fun a b => b ≤ a) := by
  have h := @List.sorted_mergeSort Nat
    (fun a b : Nat => decide (b ≤ a))
    (fun a b c hab hbc => by
      simp only [decide_eq_true_eq] at hab hbc ⊢
      omega)
    (fun a b => by
      rcases Nat.le_total b a with h | h
      · simp [h]
      · simp [h])
    (kpis.map Prod.fst)
  exact h.imp (fun hab => by simpa using hab)

theorem foldl_windowStep (kpis : List (Nat × DailyKpi)) :
    ∀ (ds : List Nat) (b : BucketData),
      (∀ d ∈ ds, (kpis.lookup d).isSome) →
      ((ds.foldl (fun b d =>
          match kpis.lookup d with
          | some k => addDay b d k
          | none => b) b).dates = b.dates ++ ds ∧
       (ds.foldl (fun b d =>
          match kpis.lookup d with
          | some k => addDay b d k
          | none => b) b).working_days = b.working_days + ds.length) := by
  intro ds
  induction ds with
  | nil => intro b _; simp
  | cons d rest ih =>
      intro b hds
      obtain ⟨k, hk⟩ := Option.isSome_iff_exists.mp (hds d (List.mem_cons_self _ _))
      rw [List.foldl_cons]
      have hrest := ih (addDay b d k) (fun x hx => hds x (List.mem_cons_of_mem _ hx))
      constructor
      · rw [show (match kpis.lookup d with
            | some k => addDay b d k
            | none => b) = addDay b d k by rw [hk]]
        rw [hrest.1]
        simp [addDay]
      · rw [show (match kpis.lookup d with
            | some k => addDay b d k
            | none => b) = addDay b d k by rw [hk]]
        rw [hrest.2]
        simp [addDay]
        omega

/-! ### Claim theorems -/

/-- C9, counterexample: the reduction of the empty value sequence does
NOT return `count = 0` — the count field is absent (`{}` is returned). -/
theorem c9_empty_stats_counterexample :
    (timeStatsWithCount []).count ≠ some 0 := by decide

/-- C9, amended: the statistical reducers applied to an empty value
sequence return the empty record `{}`: every statistic field is
absent/null, and no `count` field (in particular no `count = 0`) is
emitted; both reducers are total, so they never raise on empty input. -/
theorem c9_empty_stats :
    timeStatsWithCount [] = emptyTimeStatsC ∧
    timeStatsFromStrings [] = ⟨none, none, none, none⟩ := by decide

/-- C8, counterexample: for 2025-12-29 (ISO week 1 of ISO year 2026) the
aggregation scripts' weekly key uses the calendar year, producing
`2025-W01`, not the ISO pair `2026-W01`. -/
theorem c8_week_key_counterexample :
    weekKeyEnhanced (daysFromCivilN 2025 12 29) = r"2025-W01" ∧
    isoWeekYear (daysFromCivilN 2025 12 29) = 2026 ∧
    weekKeyReports (daysFromCivilN 2025 12 29) = r"2026-W01" ∧
    weekKeyEnhanced (daysFromCivilN 2025 12 29) ≠
      weekKeyReports (daysFromCivilN 2025 12 29) := by decide

/-- C8, amended: the aggregation scripts' weekly key is
`{calendar year}-W{ISO week number:02d}`; it agrees with the full ISO
`(year, week)` key (used by the backfill chart series) whenever the
date's calendar year equals its ISO week-based year — in particular
2025-06-30 and 2025-07-04 both land in the single bucket `2025-W27`
under both keys — but diverges near calendar-year boundaries. -/
theorem c8_week_key_amended :
    (∀ z : Nat, civilYearN z = isoWeekYear z →
        weekKeyEnhanced z = weekKeyReports z) ∧
    weekKeyEnhanced (daysFromCivilN 2025 6 30) = r"2025-W27" ∧
    weekKeyEnhanced (daysFromCivilN 2025 7 4) = r"2025-W27" ∧
    weekKeyReports (daysFromCivilN 2025 6 30) = r"2025-W27" ∧
    weekKeyReports (daysFromCivilN 2025 7 4) = r"2025-W27" := by
  refine ⟨?_, by decide, by decide, by decide, by decide⟩
  intro z h
  unfold weekKeyEnhanced weekKeyReports
  rw [h]

/-- C8, witness: instantiating the congruence part of the amended claim
at 2025-06-30. -/
theorem c8_week_key_witness :
    civilYearN (daysFromCivilN 2025 6 30) = isoWeekYear (daysFromCivilN 2025 6 30) ∧
    weekKeyEnhanced (daysFromCivilN 2025 6 30) =
      weekKeyReports (daysFromCivilN 2025 6 30) :=
  ⟨by decide, c8_week_key_amended.1 (daysFromCivilN 2025 6 30) (by decide)⟩

/-- C4: the daily aggregation of `_update_history_daily` RAISES on a
positive-duration entry whose `stop` is missing: for a lone
HomeOffice-tagged entry with `stop = None`, Rule 2 compares a `datetime`
with `None` (`TypeError`), and the exception propagates out of the
aggregation. -/
theorem c4_missing_stop_raises :
    updateHistoryDays [⟨some (jul17 9 0), none, 3600, false, [r"HomeOffice"]⟩] =
      Except.error () := by decide

/-- C7: merging a new batch into the existing history by `dict.update`
is key-preserving: every key resolves to the new batch's value when the
new batch has it and to the untouched existing value otherwise; merging
`{B, C}` into `{A, B}` yields exactly `{A, B', C}`. -/
theorem c7_merge_key_preserving :
    (∀ (V : Type) (old new : List (String × V)) (k : String),
        (dictUpdate old new).lookup k = optOr (new.lookup k) (old.lookup k)) ∧
    dictUpdate
        ([(r"A", 1), (r"B", 2)] : List (String × Nat))
        ([(r"B", 3), (r"C", 4)] : List (String × Nat)) =
      [(r"A", 1), (r"B", 3), (r"C", 4)] :=
  ⟨fun _ old new k => dictUpdate_lookup old new k, by decide⟩

/-- C5: the day's `late_work` flag is true iff some qualifying entry has
start hour ≥ 20 or stop hour ≥ 20 (a missing stop defaulting to the
start), and the final-production variant of the flag (computed on the
Swiss local clock) is likewise an existence check, a per-day boolean
(`late_work_count ≤ 1`) no matter how many entries qualify. -/
theorem c5_late_work_iff :
    (∀ entries : List Entry,
        lateWork entries = true ↔
          ∃ e ∈ entries,
            20 ≤ hourOfN e.start ∨ 20 ≤ hourOfN (e.stop.getD e.start)) ∧
    (∀ l : List FEntry,
        (lateCountFinal l = 1 ↔
          ∃ e ∈ l, 20 ≤ hourOfN e.start_swiss ∨ 20 ≤ hourOfN e.stop_swiss) ∧
        lateCountFinal l ≤ 1) := by
  constructor
  · intro entries
    have hiff : ∀ e : Entry,
        ((decide (20 ≤ hourOfN e.start) ||
          (match e.stop with
           | some s => decide (20 ≤ hourOfN s)
           | none => false)) = true) ↔
          (20 ≤ hourOfN e.start ∨ 20 ≤ hourOfN (e.stop.getD e.start)) := by
      intro e
      cases hstop : e.stop with
      | none => simp [hstop, or_self_iff]
      | some s => simp [hstop]
    rw [lateWork, List.any_eq_true]
    exact ⟨fun ⟨e, he, h⟩ => ⟨e, he, (hiff e).mp h⟩,
      fun ⟨e, he, h⟩ => ⟨e, he, (hiff e).mpr h⟩⟩
  · intro l
    have h1 : lateCountFinal l = 1 ↔
        (l.any fun e =>
          decide (20 ≤ hourOfN e.start_swiss) ||
            decide (20 ≤ hourOfN e.stop_swiss)) = true := by
      unfold lateCountFinal
      cases l.any fun e =>
          decide (20 ≤ hourOfN e.start_swiss) ||
            decide (20 ≤ hourOfN e.stop_swiss) <;> simp
    constructor
    · rw [h1, List.any_eq_true]
      simp
    · unfold lateCountFinal
      cases l.any fun e =>
          decide (20 ≤ hourOfN e.start_swiss) ||
            decide (20 ≤ hourOfN e.stop_swiss) <;> simp

theorem filterMap_filter {α β : Type} (P : α → Bool) (g : α → Option β) :
    ∀ l : List α,
      (l.filter P).filterMap g =
        l.filterMap (fun a => if P a then g a else none) := by
  intro l
  induction l with
  | nil => rfl
  | cons a rest ih =>
      by_cases hP : P a = true
      · rw [List.filter_cons, if_pos hP, List.filterMap_cons, List.filterMap_cons,
          if_pos hP]
        cases g a <;> simp [ih]
      · rw [List.filter_cons, if_neg hP, List.filterMap_cons,
          if_neg hP]
        exact ih

/-- C3, counterexample: a week containing exactly one day whose billable
value is present and equal to `0` feeds NO values to the billable-hours
reduction (the `> 0` guard drops the day), although the day's value is
non-null. -/
theorem c3_zero_value_counterexample :
    (aggregateWeeklyData [(20286, kpiZeroBillable)]).lookup (r"2025-W29") =
      some ⟨[], [5], [], [], 0, 1, [20286]⟩ ∧
    kpiZeroBillable.billable_sum = 0 := by decide

/-- C3, amended: the values fed to the statistical reduction of a weekly
bucket are exactly the days of that bucket whose value is present AND
truthy — hour sums contribute only when strictly positive (a day with
value `0` is excluded like a missing one), time-of-day values only when
non-null and non-zero — and the reducer's `count` equals the number of
values so fed. -/
theorem c3_values_fed :
    (∀ (kpis : List (Nat × DailyKpi)) (w : String) (b : BucketData),
        (aggregateWeeklyData kpis).lookup w = some b →
        b.billable =
          (kpis.filter (fun p =>
            decide (weekKeyEnhanced p.1 = w) &&
              decide (0 < p.2.billable_sum))).map (fun p => p.2.billable_sum) ∧
        b.back_home =
          kpis.filterMap (fun p =>
            if weekKeyEnhanced p.1 = w then
              match p.2.back_home_time with
              | some q => if q = 0 then none else some q
              | none => none
            else none)) ∧
    (∀ ts : List (Option (Nat × Nat)),
        (timeStatsWithCount ts).count =
          if (ts.filterMap id).isEmpty then none
          else some (ts.filterMap id).length) := by
  constructor
  · intro kpis w b hb
    rw [aggregateWeeklyData_lookup] at hb
    by_cases hsel : (kpis.filter (fun p => decide (weekKeyEnhanced p.1 = w))).isEmpty
    · rw [if_pos hsel] at hb
      exact absurd hb (by simp)
    · rw [if_neg hsel] at hb
      have hbv : b =
          (kpis.filter (fun p => decide (weekKeyEnhanced p.1 = w))).foldl
            (fun b p => addDay b p.1 p.2) emptyBucket := by
        injection hb.symm
      subst hbv
      constructor
      · rw [foldl_addDay_billable, List.filter_filter]
        have hcongr : List.filter
            (fun p => decide (0 < p.2.billable_sum) &&
              decide (weekKeyEnhanced p.1 = w)) kpis =
            List.filter (fun p => decide (weekKeyEnhanced p.1 = w) &&
              decide (0 < p.2.billable_sum)) kpis := by
          apply List.filter_congr
          intro a _
          rw [Bool.and_comm]
        rw [hcongr]
        simp [emptyBucket]
      · rw [foldl_addDay_back_home, filterMap_filter]
        simp only [emptyBucket, List.nil_append]
        apply List.filterMap_congr
        intro a _
        by_cases h : weekKeyEnhanced a.1 = w
        · simp [h]
        · simp [h]
  · intro ts
    unfold timeStatsWithCount
    by_cases hts : ts.isEmpty
    · have : ts = [] := List.isEmpty_iff.mp hts
      subst this
      simp [emptyTimeStatsC]
    · rw [if_neg hts]
      rw [filterMap_map_opt]
      by_cases hdec : ((ts.filterMap id).map timeDecimal).isEmpty
      · rw [if_pos hdec]
        have hnil : (ts.filterMap id).map timeDecimal = [] := List.isEmpty_iff.mp hdec
        have hnil2 : ts.filterMap id = [] := by
          cases h : ts.filterMap id with
          | nil => rfl
          | cons a l => rw [h] at hnil; simp at hnil
        rw [hnil2]
        simp [emptyTimeStatsC]
      · rw [if_neg hdec]
        have hne : (ts.filterMap id).isEmpty = false := by
          cases h : ts.filterMap id with
          | nil => rw [h] at hdec; simp at hdec
          | cons a l => simp
        simp [hne, List.length_map]

/-- C3, witness: instantiating the values-fed characterization on a
one-day corpus whose billable value is zero. -/
theorem c3_values_fed_witness :
    (aggregateWeeklyData [(20286, kpiZeroBillable)]).lookup (r"2025-W29") =
      some (⟨[], [5], [], [], 0, 1, [20286]⟩ : BucketData) ∧
    ((⟨[], [5], [], [], 0, 1, [20286]⟩ : BucketData).billable =
      ([(20286, kpiZeroBillable)].filter (fun p =>
        decide (weekKeyEnhanced p.1 = r"2025-W29") &&
          decide (0 < p.2.billable_sum))).map (fun p => p.2.billable_sum) ∧
     (⟨[], [5], [], [], 0, 1, [20286]⟩ : BucketData).back_home =
      [(20286, kpiZeroBillable)].filterMap (fun p =>
        if weekKeyEnhanced p.1 = r"2025-W29" then
          match p.2.back_home_time with
          | some q => if q = 0 then none else some q
          | none => none
        else none)) :=
  ⟨by decide,
   c3_values_fed.1 [(20286, kpiZeroBillable)] (r"2025-W29")
     ⟨[], [5], [], [], 0, 1, [20286]⟩ (by decide)⟩

theorem windows_lookup_none (kpis : List (Nat × DailyKpi)) :
    ∀ (ps : List Nat) (k : String), (∀ q ∈ ps, wdKey q ≠ k) →
      (ps.filterMap (fun period =>
        if period ≤ (sortedDatesDesc kpis).length then
          some (wdKey period, windowBucket kpis period)
        else none)).lookup k = none := by
  intro ps
  induction ps with
  | nil => intro k _; rfl
  | cons p rest ih =>
      intro k h
      rw [List.filterMap_cons]
      by_cases hp : p ≤ (sortedDatesDesc kpis).length
      · simp only [if_pos hp]
        have hb : (k == wdKey p) = false :=
          beq_eq_false_iff_ne.mpr (fun he => h p (List.mem_cons_self _ _) he.symm)
        simp only [List.lookup, hb]
        exact ih k (fun q hq => h q (List.mem_cons_of_mem _ hq))
      · simp only [if_neg hp]
        exact ih k (fun q hq => h q (List.mem_cons_of_mem _ hq))

theorem cwda_eq (kpis : List (Nat × DailyKpi)) :
    calculateWorkingDaysAggregations kpis =
      [5, 10, 30].filterMap (fun period =>
        if period ≤ (sortedDatesDesc kpis).length then
          some (wdKey period, windowBucket kpis period)
        else none) := rfl

theorem cwda_lookup (kpis : List (Nat × DailyKpi)) (N : Nat)
    (hN : N ∈ [5, 10, 30]) :
    (calculateWorkingDaysAggregations kpis).lookup (wdKey N) =
      if N ≤ (sortedDatesDesc kpis).length then some (windowBucket kpis N)
      else none := by
  rw [cwda_eq]
  have hN3 : N = 5 ∨ N = 10 ∨ N = 30 := by simpa using hN
  rcases hN3 with h | h | h
  · subst h
    rw [List.filterMap_cons]
    by_cases h5 : 5 ≤ (sortedDatesDesc kpis).length
    · simp only [if_pos h5, List.lookup, beq_self_eq_true]
    · simp only [if_neg h5]
      exact windows_lookup_none kpis [10, 30] (wdKey 5) (by decide)
  · subst h
    rw [List.filterMap_cons]
    by_cases h5 : 5 ≤ (sortedDatesDesc kpis).length
    · simp only [if_pos h5]
      have hb : (wdKey 10 == wdKey 5) = false := by decide
      simp only [List.lookup, hb]
      rw [List.filterMap_cons]
      by_cases h10 : 10 ≤ (sortedDatesDesc kpis).length
      · simp only [if_pos h10, List.lookup, beq_self_eq_true]
      · simp only [if_neg h10]
        exact windows_lookup_none kpis [30] (wdKey 10) (by decide)
    · simp only [if_neg h5]
      rw [List.filterMap_cons]
      by_cases h10 : 10 ≤ (sortedDatesDesc kpis).length
      · simp only [if_pos h10, List.lookup, beq_self_eq_true]
      · simp only [if_neg h10]
        exact windows_lookup_none kpis [30] (wdKey 10) (by decide)
  · subst h
    rw [List.filterMap_cons]
    by_cases h5 : 5 ≤ (sortedDatesDesc kpis).length
    · simp only [if_pos h5]
      have hb : (wdKey 30 == wdKey 5) = false := by decide
      simp only [List.lookup, hb]
      rw [List.filterMap_cons]
      by_cases h10 : 10 ≤ (sortedDatesDesc kpis).length
      · simp only [if_pos h10]
        have hb2 : (wdKey 30 == wdKey 10) = false := by decide
        simp only [List.lookup, hb2]
        rw [List.filterMap_cons]
        by_cases h30 : 30 ≤ (sortedDatesDesc kpis).length
        · simp only [if_pos h30, List.lookup, beq_self_eq_true]
        · simp only [if_neg h30]
          rfl
      · simp only [if_neg h10]
        rw [List.filterMap_cons]
        by_cases h30 : 30 ≤ (sortedDatesDesc kpis).length
        · simp only [if_pos h30, List.lookup, beq_self_eq_true]
        · simp only [if_neg h30]
          rfl
    · simp only [if_neg h5]
      rw [List.filterMap_cons]
      by_cases h10 : 10 ≤ (sortedDatesDesc kpis).length
      · simp only [if_pos h10]
        have hb2 : (wdKey 30 == wdKey 10) = false := by decide
        simp only [List.lookup, hb2]
        rw [List.filterMap_cons]
        by_cases h30 : 30 ≤ (sortedDatesDesc kpis).length
        · simp only [if_pos h30, List.lookup, beq_self_eq_true]
        · simp only [if_neg h30]
          rfl
      · simp only [if_neg h10]
        rw [List.filterMap_cons]
        by_cases h30 : 30 ≤ (sortedDatesDesc kpis).length
        · simp only [if_pos h30, List.lookup, beq_self_eq_true]
        · simp only [if_neg h30]
          rfl

/-- C6: for each configured rolling-window size `N ∈ {5, 10, 30}`, the
window key `"{N}WD"` is present in the output iff at least `N` dates
with daily KPIs exist; when present, the bucket aggregates exactly the
`N` most recent such dates — it lists the first `N` of the
descending-sorted date keys, has exactly `N` contributing days, every
listed date exists in the corpus, and every corpus date left out of the
window is ≤ every date inside it. No partial window is emitted. -/
theorem c6_rolling_windows (kpis : List (Nat × DailyKpi)) (N : Nat)
    (hN : N ∈ [5, 10, 30]) :
    ((calculateWorkingDaysAggregations kpis).lookup (wdKey N) = none ↔
        kpis.length < N) ∧
    (∀ b, (calculateWorkingDaysAggregations kpis).lookup (wdKey N) = some b →
        b.dates = (sortedDatesDesc kpis).take N ∧
        b.dates.length = N ∧
        b.working_days = N ∧
        (∀ d ∈ b.dates, d ∈ kpis.map Prod.fst) ∧
        (∀ x ∈ kpis.map Prod.fst, x ∉ b.dates → ∀ y ∈ b.dates, x ≤ y)) := by
  have hlk := cwda_lookup kpis N hN
  have hlen := sortedDatesDesc_length kpis
  constructor
  · rw [hlk]
    by_cases h : N ≤ (sortedDatesDesc kpis).length
    · rw [if_pos h]
      constructor
      · intro hfalse
        exact absurd hfalse (by simp)
      · intro hlt
        exact absurd hlt (by omega)
    · rw [if_neg h]
      constructor
      · intro _
        omega
      · intro _
        rfl
  · intro b hb
    rw [hlk] at hb
    by_cases h : N ≤ (sortedDatesDesc kpis).length
    · rw [if_pos h] at hb
      have hbv : windowBucket kpis N = b := by
        injection hb
      subst hbv
      have hmemkeys : ∀ d ∈ (sortedDatesDesc kpis).take N, d ∈ kpis.map Prod.fst := by
        intro d hd
        exact (sortedDatesDesc_perm kpis).mem_iff.mp (List.take_subset _ _ hd)
      have hlkup : ∀ d ∈ (sortedDatesDesc kpis).take N, (kpis.lookup d).isSome :=
        fun d hd => lookup_isSome_of_mem kpis d (hmemkeys d hd)
      have hfold := foldl_windowStep kpis ((sortedDatesDesc kpis).take N)
        emptyBucket hlkup
      have htlen : ((sortedDatesDesc kpis).take N).length = N := by
        rw [List.length_take]
        omega
      have hdates : (windowBucket kpis N).dates = (sortedDatesDesc kpis).take N := by
        unfold windowBucket
        rw [hfold.1]
        simp [emptyBucket]
      refine ⟨hdates, ?_, ?_, ?_, ?_⟩
      · rw [hdates, htlen]
      · unfold windowBucket
        rw [hfold.2, htlen]
        simp [emptyBucket]
      · intro d hd
        rw [hdates] at hd
        exact hmemkeys d hd
      · intro x hx hnx y hy
        rw [hdates] at hnx hy
        have hxs : x ∈ sortedDatesDesc kpis := (sortedDatesDesc_perm kpis).mem_iff.mpr hx
        have hsplit := List.take_append_drop N (sortedDatesDesc kpis)
        have hpw := sortedDatesDesc_sorted kpis
        rw [← hsplit] at hpw
        rw [List.pairwise_append] at hpw
        have hxdrop : x ∈ (sortedDatesDesc kpis).drop N := by
          rw [← hsplit] at hxs
          rcases List.mem_append.mp hxs with h1 | h1
          · exact absurd h1 hnx
          · exact h1
        exact hpw.2.2 y hy x hxdrop
    · rw [if_neg h] at hb
      exact absurd hb (by simp)

/-- C2, counterexample: the raw entry starting `2025-07-17 22:30 UTC`
(Swiss local time `2025-07-18 00:30`) is bucketed by
`_update_history_daily` under its raw UTC date (day 20286 =
2025-07-17), not its Swiss local civil date (day 20287 = 2025-07-18),
which is where `calculate_final_daily_kpis` buckets it. -/
theorem c2_utc_bucket_counterexample :
    (groupByDate (normalizeEntries exRawLate)).map Prod.fst = [20286] ∧
    dateOfN (swissClock (jul17 22 30)) = 20287 ∧
    (groupFinal exRawLate).map Prod.fst = [20287] := by decide

/-- C2, amended: the final-production pipeline derives the calendar-day
bucket of every entry from the full `Europe/Zurich` zoned conversion of
its start (and carries zoned conversions of both timestamps), the zone
following the daylight-saving rule (offset +02:00 in July, +01:00 in
January); the `_update_history_daily` pipeline of `fetch-toggl-data.py`
instead buckets every entry by the raw (UTC) date of its stored start
timestamp, with no conversion. -/
theorem c2_local_time_amended :
    (∀ (raw : List RawEntry) (d : Nat) (es : List FEntry) (fe : FEntry),
        (d, es) ∈ groupFinal raw → fe ∈ es → d = dateOfN fe.start_swiss) ∧
    (∀ (raw : List RawEntry) (fe : FEntry), fe ∈ normalizeFinal raw →
        fe.start_swiss = swissClock fe.start_utc ∧
        fe.stop_swiss = swissClock fe.stop_utc) ∧
    (∀ (raw : List RawEntry) (d : Nat) (es : List Entry) (e : Entry),
        (d, es) ∈ groupByDate (normalizeEntries raw) → e ∈ es →
        d = dateOfN e.start) ∧
    swissOffset (daysFromCivilN 2025 7 17 * 86400) = 7200 ∧
    swissOffset (daysFromCivilN 2025 1 15 * 86400) = 3600 := by
  refine ⟨?_, ?_, ?_, by decide, by decide⟩
  · intro raw d es fe hmem hfe
    unfold groupFinal at hmem
    exact (groupByKey_keyed (fun e => dateOfN e.start_swiss)
      (normalizeFinal raw) (d, es) hmem fe hfe).symm
  · intro raw fe hfe
    unfold normalizeFinal at hfe
    rw [List.mem_filterMap] at hfe
    obtain ⟨r, _, heq⟩ := hfe
    cases hs : r.start with
    | none => rw [hs] at heq; simp at heq
    | some s =>
        cases hp : r.stop with
        | none => rw [hs, hp] at heq; simp at heq
        | some p =>
            rw [hs, hp] at heq
            dsimp only [] at heq
            by_cases hd : r.duration ≤ 0
            · rw [if_pos hd] at heq; simp at heq
            · rw [if_neg hd] at heq
              have hfe2 : fe = ⟨s, p, swissClock s, swissClock p,
                  r.duration, r.billable, r.tags⟩ := by
                injection heq with h1
                exact h1.symm
              subst hfe2
              exact ⟨rfl, rfl⟩
  · intro raw d es e hmem he
    unfold groupByDate at hmem
    exact (groupByKey_keyed (fun e => dateOfN e.start)
      (normalizeEntries raw) (d, es) hmem e he).symm

/-- C2, witness: instantiating the Swiss-date bucketing clause on the
late-evening entry. -/
theorem c2_local_time_witness :
    ((20287, [feLate]) ∈ groupFinal exRawLate ∧ feLate ∈ [feLate]) ∧
    20287 = dateOfN feLate.start_swiss :=
  ⟨⟨by decide, by decide⟩,
   c2_local_time_amended.1 exRawLate 20287 [feLate] feLate (by decide) (by decide)⟩

theorem rules23_spec (entries : List Entry) (lh : Entry) (hstop : Nat)
    (hstopEq : lh.stop = some hstop) (hne : entries ≠ []) :
    (homeOfficeRules23 entries lh = Except.ok (some (fmtHM (minutesN hstop))) ↔
      (¬ rule2Holds entries hstop ∧ lastOfDayIsHome entries)) ∧
    (homeOfficeRules23 entries lh = Except.ok none ↔
      (rule2Holds entries hstop ∨ ¬ lastOfDayIsHome entries)) := by
  have hany : (entries.any (fun e => decide (hstop < e.start) && ! is_home e)) = true ↔
      rule2Holds entries hstop := by
    rw [List.any_eq_true]
    unfold rule2Holds
    constructor
    · rintro ⟨e, he, hc⟩
      rw [Bool.and_eq_true] at hc
      obtain ⟨hc1, hc2⟩ := hc
      have hhome : is_home e = false := by
        cases h : is_home e
        · rfl
        · rw [h] at hc2
          simp at hc2
      exact ⟨e, he, hhome, of_decide_eq_true hc1⟩
    · rintro ⟨e, he, hh, hlt⟩
      refine ⟨e, he, ?_⟩
      rw [Bool.and_eq_true]
      refine ⟨decide_eq_true hlt, ?_⟩
      rw [hh]
      rfl
  unfold homeOfficeRules23
  split
  next heq =>
    rw [hstopEq] at heq
    cases heq
  next hstop2 heq =>
    rw [hstopEq] at heq
    injection heq with heq2
    subst heq2
    by_cases ha : (entries.any (fun e => decide (hstop < e.start) && ! is_home e)) = true
    · rw [if_pos ha]
      constructor
      · constructor
        · intro habs
          exact absurd habs (by simp)
        · rintro ⟨h2, _⟩
          exact absurd (hany.mp ha) h2
      · constructor
        · intro _
          exact Or.inl (hany.mp ha)
        · intro _
          rfl
    · rw [if_neg ha]
      split
      next heq3 =>
        exact absurd ((pyLastMax_eq_none_iff _ _).mp heq3) hne
      next ld heq3 =>
        have hldh : lastOfDayIsHome entries ↔ is_home ld = true := by
          unfold lastOfDayIsHome
          constructor
          · rintro ⟨ld2, hld2, hh⟩
            rw [heq3] at hld2
            injection hld2 with h2
            rw [h2]
            exact hh
          · intro hh
            exact ⟨ld, heq3, hh⟩
        by_cases hh : is_home ld = true
        · rw [if_pos hh]
          constructor
          · constructor
            · intro _
              exact ⟨fun hr2 => ha (hany.mpr hr2), hldh.mpr hh⟩
            · intro _
              rfl
          · constructor
            · intro habs
              exact absurd habs (by simp)
            · rintro (hr2 | hnld)
              · exact absurd (hany.mpr hr2) ha
              · exact absurd (hldh.mpr hh) hnld
        · rw [if_neg hh]
          constructor
          · constructor
            · intro habs
              exact absurd habs (by simp)
            · rintro ⟨_, hld2⟩
              exact absurd (hldh.mp hld2) hh
          · constructor
            · intro _
              exact Or.inr (fun hld2 => hh (hldh.mp hld2))
            · intro _
              rfl

/-- C1: on a day bucket in which every entry has a stop, the home-office
end time follows the three-rule protocol: it is null when no
HomeOffice-tagged entry exists; given the latest-starting home-office
entry `lh` (with stop `hstop`), the result is null exactly when Rule 1
rejects (a commuting entry exists and `lh.start > lastCommute.stop`), or
Rule 2 rejects (some non-home entry starts strictly after `hstop`), or
the overall last entry of the day is not home-office-tagged; and it
equals `hstop` as `HH:MM` exactly when none of the rules reject and the
last entry of the day is home-office-tagged (Rule 3). -/
theorem c1_home_office_protocol (entries : List Entry)
    (hstops : ∀ e ∈ entries, e.stop.isSome = true) :
    (entries.filter (fun e => is_home e) = [] →
        homeOfficeEndTime entries = Except.ok none) ∧
    (∀ lh hstop,
        pyLastMax (fun e => e.start) (entries.filter (fun e => is_home e)) = some lh →
        lh.stop = some hstop →
        ((homeOfficeEndTime entries = Except.ok (some (fmtHM (minutesN hstop))) ↔
            (¬ rule1Holds entries lh ∧ ¬ rule2Holds entries hstop ∧
              lastOfDayIsHome entries)) ∧
         (homeOfficeEndTime entries = Except.ok none ↔
            (rule1Holds entries lh ∨ rule2Holds entries hstop ∨
              ¬ lastOfDayIsHome entries)))) := by
  constructor
  · intro hnil
    unfold homeOfficeEndTime
    rw [hnil]
    rfl
  · intro lh hstop hlh hstopEq
    have hlhmem : lh ∈ entries :=
      List.mem_of_mem_filter (pyLastMax_mem _ _ _ hlh)
    have hne : entries ≠ [] := by
      intro h
      rw [h] at hlhmem
      simp at hlhmem
    have hspec := rules23_spec entries lh hstop hstopEq hne
    unfold homeOfficeEndTime
    split
    next heq0 =>
      rw [hlh] at heq0
      cases heq0
    next lastHome heq0 =>
      rw [hlh] at heq0
      injection heq0 with heq1
      subst heq1
      split
      next heq =>
        have hr1 : ¬ rule1Holds entries lh := by
          rintro ⟨lc, hlc, _⟩
          rw [heq] at hlc
          cases hlc
        constructor
        · rw [hspec.1]
          constructor
          · rintro ⟨h2, h3⟩
            exact ⟨hr1, h2, h3⟩
          · rintro ⟨_, h2, h3⟩
            exact ⟨h2, h3⟩
        · rw [hspec.2]
          constructor
          · intro h
            exact Or.inr h
          · rintro (h1 | h)
            · exact absurd h1 hr1
            · exact h
      next lc heq =>
        split
        next heq2 =>
          have hlcmem : lc ∈ entries :=
            List.mem_of_mem_filter (pyLastMax_mem _ _ _ heq)
          have hsome := hstops lc hlcmem
          rw [heq2] at hsome
          simp at hsome
        next cs heq2 =>
          have hr1iff : rule1Holds entries lh ↔ cs < lh.start := by
            unfold rule1Holds
            constructor
            · rintro ⟨lc2, hlc2, cs2, hcs2, hlt⟩
              rw [heq] at hlc2
              injection hlc2 with h2
              subst h2
              rw [heq2] at hcs2
              injection hcs2 with h3
              subst h3
              exact hlt
            · intro hlt
              exact ⟨lc, heq, cs, heq2, hlt⟩
          by_cases hlt : cs < lh.start
          · rw [if_pos hlt]
            constructor
            · constructor
              · intro habs
                exact absurd habs (by simp)
              · rintro ⟨h1, _, _⟩
                exact absurd (hr1iff.mpr hlt) h1
            · constructor
              · intro _
                exact Or.inl (hr1iff.mpr hlt)
              · intro _
                rfl
          · rw [if_neg hlt]
            have hr1 : ¬ rule1Holds entries lh := fun h => hlt (hr1iff.mp h)
            constructor
            · rw [hspec.1]
              constructor
              · rintro ⟨h2, h3⟩
                exact ⟨hr1, h2, h3⟩
              · rintro ⟨_, h2, h3⟩
                exact ⟨h2, h3⟩
            · rw [hspec.2]
              constructor
              · intro h
                exact Or.inr h
              · rintro (h1 | h)
                · exact absurd h1 hr1
                · exact h

/-- C1, witness: instantiating the protocol characterization on the
spec's pure home-office day, whose latest-starting entry stops at
17:30. -/
theorem c1_home_office_protocol_witness :
    (∀ e ∈ exDayPure, e.stop.isSome = true) ∧
    ((homeOfficeEndTime exDayPure =
        Except.ok (some (fmtHM (minutesN (jul17 17 30)))) ↔
      (¬ rule1Holds exDayPure exDayPureLast ∧
        ¬ rule2Holds exDayPure (jul17 17 30) ∧
        lastOfDayIsHome exDayPure)) ∧
     (homeOfficeEndTime exDayPure = Except.ok none ↔
      (rule1Holds exDayPure exDayPureLast ∨
        rule2Holds exDayPure (jul17 17 30) ∨
        ¬ lastOfDayIsHome exDayPure))) :=
  ⟨by decide,
   (c1_home_office_protocol exDayPure (by decide)).2 exDayPureLast (jul17 17 30)
     (by decide) (by decide)⟩

/-- C10, counterexample: on the commute-interrupted day
`[09:00–12:00 HomeOffice]`, `[13:00–14:00 Commuting]`,
`[14:30–18:00 HomeOffice]`, the pure-day criterion of
`calculate_final_daily_kpis` produces `18:00` while the three-rule
protocol of `_update_history_daily` produces null on the same entries:
the two variants are not extensionally equal. -/
theorem c10_variants_counterexample :
    pureHomeOfficeEnd exDayMixed = some (r"18:00") ∧
    homeOfficeEndTime (exDayMixed.map toEntry) = Except.ok none := by decide

/-- C10, amended: the two home-office-end variants are not extensionally
equal in general, but they agree on day buckets in which every entry is
HomeOffice-tagged, none is Commuting-tagged, and the latest-starting
entry also attains the latest stop: both return that stop as `HH:MM`. -/
theorem c10_pure_day_agreement (l : List FEntry) (lh : FEntry)
    (hAllHome : ∀ e ∈ l, fIsHome e = true)
    (hNoCommute : ∀ e ∈ l, fIsCommuting e = false)
    (hlh : pyLastMax (fun e => e.start_swiss) l = some lh)
    (hmax : ∀ e ∈ l, e.stop_swiss ≤ lh.stop_swiss) :
    pureHomeOfficeEnd l = some (fmtHM (minutesN lh.stop_swiss)) ∧
    homeOfficeEndTime (l.map toEntry) =
      Except.ok (some (fmtHM (minutesN lh.stop_swiss))) := by
  have hlhmem : lh ∈ l := pyLastMax_mem _ _ _ hlh
  have hne : l ≠ [] := by
    intro h
    rw [h] at hlhmem
    simp at hlhmem
  have hhomes : l.filter (fun e => fIsHome e) = l := List.filter_eq_self.mpr hAllHome
  have hnon : l.filter (fun e => ! fIsHome e && ! fIsCommuting e) = [] := by
    rw [List.filter_eq_nil_iff]
    intro a ha
    rw [hAllHome a ha]
    simp
  constructor
  · unfold pureHomeOfficeEnd
    rw [hhomes, hnon]
    have hle : l.isEmpty = false := by
      cases l
      · exact absurd rfl hne
      · rfl
    simp only [hle, List.isEmpty_nil, Bool.not_true, Bool.or_false,
      Bool.false_eq_true, if_false]
    split
    next fm hfm =>
      have h1 : fm.stop_swiss ≤ lh.stop_swiss := hmax fm (pyFirstMax_mem _ _ _ hfm)
      have h2 : lh.stop_swiss ≤ fm.stop_swiss := pyFirstMax_le _ _ _ hfm lh hlhmem
      rw [le_antisymm h1 h2]
    next hfm =>
      cases hl : l with
      | nil => exact absurd hl hne
      | cons x xs =>
          rw [hl] at hfm
          simp [pyFirstMax] at hfm
  · have hlast : pyLastMax (fun e => e.start) (l.map toEntry) = some (toEntry lh) := by
      rw [pyLastMax_map]
      have h2 : pyLastMax (fun a => (toEntry a).start) l = some lh := hlh
      rw [h2]
      rfl
    have hmapHome : (l.map toEntry).filter (fun e => is_home e) = l.map toEntry := by
      rw [List.filter_eq_self]
      intro a ha
      rw [List.mem_map] at ha
      obtain ⟨e, he, rfl⟩ := ha
      exact hAllHome e he
    have hmapCom : (l.map toEntry).filter (fun e => is_commuting e) = [] := by
      rw [List.filter_eq_nil_iff]
      intro a ha
      rw [List.mem_map] at ha
      obtain ⟨e, he, rfl⟩ := ha
      intro hcc
      have hcf : fIsCommuting e = true := hcc
      rw [hNoCommute e he] at hcf
      cases hcf
    unfold homeOfficeEndTime
    split
    next heq0 =>
      rw [hmapHome, hlast] at heq0
      cases heq0
    next lastHome heq0 =>
      rw [hmapHome, hlast] at heq0
      injection heq0 with heq1
      subst heq1
      split
      next heq2 =>
        have hne2 : l.map toEntry ≠ [] := by
          cases l
          · exact absurd rfl hne
          · simp
        have hspec := rules23_spec (l.map toEntry) (toEntry lh) lh.stop_swiss rfl hne2
        rw [hspec.1]
        constructor
        · rintro ⟨e, he, hnh, _⟩
          rw [List.mem_map] at he
          obtain ⟨e0, he0, rfl⟩ := he
          have hf : fIsHome e0 = false := hnh
          rw [hAllHome e0 he0] at hf
          cases hf
        · refine ⟨toEntry lh, hlast, ?_⟩
          exact hAllHome lh hlhmem
      next lc heq2 =>
        rw [hmapCom] at heq2
        cases heq2

/-- C10, witness: instantiating the agreement theorem on a two-entry
all-home-office day whose later entry also stops last. -/
theorem c10_pure_day_agreement_witness :
    ((∀ e ∈ exDayAllHome, fIsHome e = true) ∧
     (∀ e ∈ exDayAllHome, fIsCommuting e = false) ∧
     pyLastMax (fun e => e.start_swiss) exDayAllHome = some exDayAllHomeLast ∧
     (∀ e ∈ exDayAllHome, e.stop_swiss ≤ exDayAllHomeLast.stop_swiss)) ∧
    (pureHomeOfficeEnd exDayAllHome =
        some (fmtHM (minutesN exDayAllHomeLast.stop_swiss)) ∧
     homeOfficeEndTime (exDayAllHome.map toEntry) =
        Except.ok (some (fmtHM (minutesN exDayAllHomeLast.stop_swiss)))) :=
  ⟨⟨by decide, by decide, by decide, by decide⟩,
   c10_pure_day_agreement exDayAllHome exDayAllHomeLast
     (by decide) (by decide) (by decide) (by decide)⟩

/-- C6, witness: instantiating the rolling-window theorem at `N = 5` on
a five-day corpus. -/
theorem c6_rolling_windows_witness :
    (5 ∈ [5, 10, 30]) ∧
    (((calculateWorkingDaysAggregations exKpisFive).lookup (wdKey 5) = none ↔
        exKpisFive.length < 5) ∧
     (∀ b, (calculateWorkingDaysAggregations exKpisFive).lookup (wdKey 5) = some b →
        b.dates = (sortedDatesDesc exKpisFive).take 5 ∧
        b.dates.length = 5 ∧
        b.working_days = 5 ∧
        (∀ d ∈ b.dates, d ∈ exKpisFive.map Prod.fst) ∧
        (∀ x ∈ exKpisFive.map Prod.fst, x ∉ b.dates → ∀ y ∈ b.dates, x ≤ y))) :=
  ⟨by decide, c6_rolling_windows exKpisFive 5 (by decide)⟩

end DS
